import Mathlib

/-!
Verification of `arm_elementwise_mul_s8`
(src/CMSIS/NN/Source/BasicMathFunctions/arm_elementwise_mul_s8.c).

The kernel performs quantized elementwise multiplication of two `int8` vectors:
per element it applies zero-point correction, a 32-bit product, a fixed-point
requantization (`arm_nn_sat_doubling_high_mult` followed by
`arm_nn_divide_by_power_of_two` with the negated `out_shift`), adds the output
offset, clamps to the activation range, and narrows to `int8`.  The source file
contains two execution paths: a packed one (compiled under
`ARM_MATH_LOOPUNROLL && ARM_MATH_DSP`, four elements per iteration) and a
scalar one.

Machine integers are embedded as `Int`/`Nat` with explicit two's-complement
reinterpretation where the C code narrows (`toS8`, `toS16`) and explicit
modular arithmetic where 16-bit lanes wrap (`sadd16`).  In the C source,
`w & 0xFFFF` is `w % 65536`, `w >> 16` on a 32-bit word is `w / 65536`, and
`|` of disjoint lane ranges is `+`; the embedding writes the arithmetic form.
C's signed division truncates toward zero, embedded as `Int.tdiv`.

Support functions declared in `arm_math.h` / `arm_nnsupportfunctions.h` are not
part of `src/`; they are modelled from the spec (each such definition's doc
comment says so).
-/

set_option maxHeartbeats 1000000

namespace ElementwiseMulS8

/-- `INT32_MIN` (`Q31_MIN` in the library headers). -/
def Q31_MIN : Int := -2147483648

/-- `INT32_MAX` (`Q31_MAX` in the library headers). -/
def Q31_MAX : Int := 2147483647

/-- Modelled from the spec: the `arm_status` result enumeration is declared in
`arm_math.h`, which is not under `src/`.  The spec (§6, §7) documents that this
kernel reports exactly one outcome, success; the enumeration's other codes
exist for the wider library and are never produced here. -/
inductive arm_status where
  | ARM_MATH_SUCCESS
  | ARM_MATH_ARGUMENT_ERROR
  | ARM_MATH_LENGTH_ERROR
  | ARM_MATH_SIZE_MISMATCH
  | ARM_MATH_NANINF
  | ARM_MATH_SINGULAR
  | ARM_MATH_TEST_FAILURE
deriving DecidableEq, Repr

/-- The C `(q7_t)` cast: two's-complement narrowing of an integer to a signed
8-bit value (`x % 256` is the byte pattern, reinterpreted as signed). -/
def toS8 (x : Int) : Int :=
  if x % 256 < 128 then x % 256 else x % 256 - 256

/-- The C `(int16_t)(w & 0xFFFF)` cast applied to a lane pattern: reinterpret
the low 16 bits as a signed 16-bit value. -/
def toS16 (n : Nat) : Int :=
  if n % 65536 < 32768 then (n % 65536 : Int) else (n % 65536 : Int) - 65536

/-- Two's-complement 16-bit pattern of an integer (a sign-extended lane). -/
def toU16 (x : Int) : Nat := (x % 65536).toNat

/-- Two's-complement 8-bit pattern of an integer. -/
def toU8 (x : Int) : Nat := (x % 256).toNat

/-- Low 16-bit lane of a 32-bit word, read as signed:
`(int16_t)(w & 0x0FFFF)` (source lines 96–97, 117–118). -/
def loS16 (w : Nat) : Int := toS16 w

/-- High 16-bit lane of a 32-bit word, read as signed:
`(int16_t)((w >> 16) & 0x0FFFF)` (source lines 107–108, 127–128). -/
def hiS16 (w : Nat) : Int := toS16 (w / 65536)

/-- Modelled from the spec: `arm_nn_sat_doubling_high_mult` is declared in
`arm_nnsupportfunctions.h`, not under `src/`.  Spec §4.1 step 1: take the exact
double-width product, double it, round to nearest at the 32-bit boundary with
ties away from zero, keep the high 32 bits; saturate only in the single corner
where both operands are `INT32_MIN`.  Rounding the doubled product `2*m1*m2` at
the `2^32` boundary is adding/subtracting a `2^30` bias to `m1*m2` before the
truncating (C-style) division by `2^31`. -/
def arm_nn_sat_doubling_high_mult (m1 m2 : Int) : Int :=
  if m1 = Q31_MIN ∧ m2 = Q31_MIN then Q31_MAX
  else
    let mult := m1 * m2
    if 0 ≤ mult then (mult + 1073741824).tdiv 2147483648
    else (mult - 1073741824).tdiv 2147483648

/-- Modelled from the spec: `arm_nn_divide_by_power_of_two` is declared in
`arm_nnsupportfunctions.h`, not under `src/`.  Spec §4.1 step 2 and §9: a
positive exponent is an arithmetic right shift with round-half-away-from-zero
semantics (bias `1 << (exponent-1)` applied in the direction of the dividend's
sign, then C-style truncating division); exponent zero passes the value
through; a negative exponent is an exact left shift. -/
def arm_nn_divide_by_power_of_two (dividend : Int) (exponent : Int) : Int :=
  if 0 < exponent then
    let bias : Int := 2 ^ (exponent - 1).toNat
    if 0 ≤ dividend then (dividend + bias).tdiv (2 ^ exponent.toNat)
    else (dividend - bias).tdiv (2 ^ exponent.toNat)
  else
    dividend * 2 ^ (-exponent).toNat

/-- The requantization composition the kernel applies (source lines 100, 111,
121, 131, 154): saturating doubling high multiply by `out_mult`, then the
power-of-two divide with the **negated** `out_shift`. -/
def kernel_rescale (v out_mult out_shift : Int) : Int :=
  arm_nn_divide_by_power_of_two (arm_nn_sat_doubling_high_mult v out_mult) (-out_shift)

/-- The immutable per-invocation quantization parameters of
`arm_elementwise_mul_s8` (everything except the vectors and `block_size`). -/
structure MulParams where
  input_1_offset : Int
  input_2_offset : Int
  out_offset : Int
  out_mult : Int
  out_shift : Int
  out_activation_min : Int
  out_activation_max : Int
deriving DecidableEq, Repr

/-- The per-element tail both paths share verbatim (source lines 100–104,
111–114, 121–124, 131–134 and 154–159): requantize, add `out_offset`, clamp
with `MAX` then `MIN`, and narrow with the `(q7_t)` cast. -/
def requant_clamp_narrow (p : MulParams) (mul_res : Int) : Int :=
  let r := kernel_rescale mul_res p.out_mult p.out_shift + p.out_offset
  let r := max r p.out_activation_min
  let r := min r p.out_activation_max
  toS8 r

/-- The Element Transform of one scalar iteration (source lines 150–159):
zero-point correction of both samples, 32-bit product, then the shared
requantize/clamp/narrow tail. -/
def elementwise_transform (p : MulParams) (s1 s2 : Int) : Int :=
  let input_1 := s1 + p.input_1_offset
  let input_2 := s2 + p.input_2_offset
  requant_clamp_narrow p (input_1 * input_2)

/-- Modelled from the spec (§4.5): `read_and_pad_reordered` is declared in
`arm_nnsupportfunctions.h`, not under `src/`.  It reads four consecutive `int8`
samples and widens them to four signed 16-bit lanes spread over two 32-bit
words in the reordered (interleaved) layout the kernel's lane extraction and
its comment at source lines 84–85 assume: the first word returned holds
samples 0 (low lane) and 2 (high lane), the second holds samples 1 and 3. -/
def read_and_pad_reordered (e0 e1 e2 e3 : Int) : Nat × Nat :=
  (toU16 e0 + toU16 e2 * 65536, toU16 e1 + toU16 e3 * 65536)

/-- Modelled from the spec (§4.5): the `__SADD16` intrinsic — lane-wise signed
16-bit addition of two 32-bit words; each lane wraps modulo `2^16`. -/
def sadd16 (x y : Nat) : Nat :=
  (x % 65536 + y % 65536) % 65536 +
    ((x / 65536 % 65536 + y / 65536 % 65536) % 65536) * 65536

/-- Source lines 77–78: `(offset << 16U) | (offset & 0x0FFFF)` — a 32-bit word
whose two 16-bit lanes both hold the low 16 bits of the offset. -/
def pack_offset (off : Int) : Nat := toU16 off + toU16 off * 65536

/-- Modelled from the spec (§9): `__PACKq7` — pack four signed 8-bit values
into one 32-bit word, value 0 in the least-significant byte. -/
def PACKq7 (v0 v1 v2 v3 : Int) : Nat :=
  toU8 v0 + toU8 v1 * 256 + toU8 v2 * 65536 + toU8 v3 * 16777216

/-- Interpret a byte pattern as a signed 8-bit value. -/
def byteS8 (n : Nat) : Int :=
  if n % 256 < 128 then (n % 256 : Int) else (n % 256 : Int) - 256

/-- Modelled from the spec (§9): `write_q7x4_ia` — store a 32-bit word as four
consecutive `int8` output elements, least-significant byte first. -/
def write_q7x4 (w : Nat) : List Int :=
  [byteS8 w, byteS8 (w / 256), byteS8 (w / 65536), byteS8 (w / 16777216)]

/-- One iteration of the packed loop body (source lines 82–139): widen and
reorder four samples of each input, add the packed offsets lane-wise, run the
shared requantize/clamp/narrow tail on each of the four lane products
(`Mul 1` = lanes `b_* & 0xFFFF`, `Mul 3` = lanes `b_* >> 16`, `Mul 2` = lanes
`a_* & 0xFFFF`, `Mul 4` = lanes `a_* >> 16`), and emit the four bytes of
`__PACKq7(r1, r2, r3, r4)`. -/
def packed_group (p : MulParams) (x0 x1 x2 x3 y0 y1 y2 y3 : Int) : List Int :=
  let w1 := read_and_pad_reordered x0 x1 x2 x3
  let w2 := read_and_pad_reordered y0 y1 y2 y3
  let b_1 := w1.1
  let a_1 := w1.2
  let b_2 := w2.1
  let a_2 := w2.2
  let a_1 := sadd16 a_1 (pack_offset p.input_1_offset)
  let b_1 := sadd16 b_1 (pack_offset p.input_1_offset)
  let a_2 := sadd16 a_2 (pack_offset p.input_2_offset)
  let b_2 := sadd16 b_2 (pack_offset p.input_2_offset)
  let r1 := requant_clamp_narrow p (loS16 b_1 * loS16 b_2)
  let r3 := requant_clamp_narrow p (hiS16 b_1 * hiS16 b_2)
  let r2 := requant_clamp_narrow p (loS16 a_1 * loS16 a_2)
  let r4 := requant_clamp_narrow p (hiS16 a_1 * hiS16 a_2)
  write_q7x4 (PACKq7 r1 r2 r3 r4)

/-- The scalar `while` loop (source lines 146–163): apply the Element
Transform to `count` leading element pairs.  Running past the end of either
vector is outside the caller contract; the model then stops producing output. -/
def scalar_loop (p : MulParams) : Nat → List Int → List Int → List Int
  | 0, _, _ => []
  | count + 1, s1 :: t1, s2 :: t2 =>
      elementwise_transform p s1 s2 :: scalar_loop p count t1 t2
  | _ + 1, [], _ => []
  | _ + 1, _ :: _, [] => []

/-- The packed `while` loop (source lines 82–139): consume four elements of
each input per iteration, `count` iterations; returns the produced output
together with the remaining (unconsumed) suffixes of both inputs.  Too-short
inputs are outside the caller contract; the model then stops. -/
def packed_loop (p : MulParams) :
    Nat → List Int → List Int → List Int × List Int × List Int
  | 0, l1, l2 => ([], l1, l2)
  | count + 1, x0 :: x1 :: x2 :: x3 :: t1, y0 :: y1 :: y2 :: y3 :: t2 =>
      let out := packed_group p x0 x1 x2 x3 y0 y1 y2 y3
      let rest := packed_loop p count t1 t2
      (out ++ rest.1, rest.2.1, rest.2.2)
  | _ + 1, l1, l2 => ([], l1, l2)

/-- `arm_elementwise_mul_s8` compiled without
`ARM_MATH_LOOPUNROLL && ARM_MATH_DSP`: the scalar-only configuration
(source line 143: `loop_count = block_size`, then lines 146–165). -/
def arm_elementwise_mul_s8_scalar (p : MulParams) (input_1_vect input_2_vect : List Int)
    (block_size : Nat) : List Int × arm_status :=
  (scalar_loop p block_size input_1_vect input_2_vect, arm_status.ARM_MATH_SUCCESS)

/-- `arm_elementwise_mul_s8` compiled with
`ARM_MATH_LOOPUNROLL && ARM_MATH_DSP`: `block_size >> 2` packed iterations
(source line 80), then `block_size & 0x3` scalar iterations on the remaining
elements (source line 141), then `return ARM_MATH_SUCCESS`. -/
def arm_elementwise_mul_s8_packed (p : MulParams) (input_1_vect input_2_vect : List Int)
    (block_size : Nat) : List Int × arm_status :=
  let step := packed_loop p (block_size >>> 2) input_1_vect input_2_vect
  (step.1 ++ scalar_loop p (block_size &&& 3) step.2.1 step.2.2,
    arm_status.ARM_MATH_SUCCESS)

/-- Round-to-nearest division with ties away from zero: the reference rounding
the spec describes, defined independently of the kernel so the rounding claims
can be stated against it. -/
def roundHalfAwayDiv (num den : Int) : Int :=
  if 0 ≤ num then (num + den / 2).tdiv den else (num - den / 2).tdiv den

/-! ### Arithmetic helper lemmas -/

theorem tdiv_char (a b : Int) (hb : 0 ≤ b) :
    a.tdiv b = if 0 ≤ a then a / b else -(-a / b) := by
  split
  · exact Int.tdiv_eq_ediv (by assumption) hb
  · conv_lhs => rw [← Int.neg_neg a]
    rw [Int.neg_tdiv, Int.tdiv_eq_ediv (by omega) hb]

theorem toS8_range (x : Int) : -128 ≤ toS8 x ∧ toS8 x ≤ 127 := by
  unfold toS8; split <;> omega

theorem toS8_eq_self (x : Int) (h1 : -128 ≤ x) (h2 : x ≤ 127) : toS8 x = x := by
  unfold toS8; split <;> omega

theorem requant_clamp_narrow_s8 (p : MulParams) (v : Int) :
    -128 ≤ requant_clamp_narrow p v ∧ requant_clamp_narrow p v ≤ 127 := by
  unfold requant_clamp_narrow
  exact toS8_range _

theorem requant_clamp_narrow_range (p : MulParams)
    (hmm : p.out_activation_min ≤ p.out_activation_max)
    (hlo : -128 ≤ p.out_activation_min) (hhi : p.out_activation_max ≤ 127)
    (v : Int) :
    p.out_activation_min ≤ requant_clamp_narrow p v ∧
      requant_clamp_narrow p v ≤ p.out_activation_max := by
  unfold requant_clamp_narrow
  set r := kernel_rescale v p.out_mult p.out_shift + p.out_offset with hr
  have h1 : p.out_activation_min ≤ min (max r p.out_activation_min) p.out_activation_max := by
    rcases le_total r p.out_activation_min with h | h <;>
      simp [max_def, min_def] <;> omega
  have h2 : min (max r p.out_activation_min) p.out_activation_max ≤ p.out_activation_max :=
    min_le_right _ _
  rw [toS8_eq_self _ (by omega) (by omega)]
  exact ⟨h1, h2⟩

theorem requant_clamp_narrow_degenerate (p : MulParams)
    (h : p.out_activation_max < p.out_activation_min) (v : Int) :
    requant_clamp_narrow p v = toS8 p.out_activation_max := by
  simp only [requant_clamp_narrow]
  congr 1
  have := le_max_right (kernel_rescale v p.out_mult p.out_shift + p.out_offset)
    p.out_activation_min
  exact min_eq_right (by omega)

/-! ### Packed-lane helper lemmas -/

theorem toU16_lt (x : Int) : toU16 x < 65536 := by
  unfold toU16; omega

theorem toU8_lt (x : Int) : toU8 x < 256 := by
  unfold toU8; omega

theorem sadd16_mod (x y : Nat) :
    sadd16 x y % 65536 = (x % 65536 + y % 65536) % 65536 := by
  unfold sadd16; omega

theorem sadd16_div (x y : Nat) :
    sadd16 x y / 65536 = (x / 65536 % 65536 + y / 65536 % 65536) % 65536 := by
  unfold sadd16; omega

theorem word_mod (s t : Int) : (toU16 s + toU16 t * 65536) % 65536 = toU16 s := by
  have := toU16_lt s; omega

theorem word_div (s t : Int) : (toU16 s + toU16 t * 65536) / 65536 = toU16 t := by
  have := toU16_lt s; omega

theorem toS16_mod (n : Nat) : toS16 (n % 65536) = toS16 n := by
  unfold toS16; split <;> split <;> omega

theorem toS16_add_U16 (s off : Int) (hs : -128 ≤ s) (hs' : s ≤ 127)
    (ho : -128 ≤ off) (ho' : off ≤ 127) :
    toS16 ((toU16 s + toU16 off) % 65536) = s + off := by
  unfold toS16 toU16
  split <;> omega

theorem lane_lo (s t off : Int) (hs : -128 ≤ s) (hs' : s ≤ 127)
    (ho : -128 ≤ off) (ho' : off ≤ 127) :
    loS16 (sadd16 (toU16 s + toU16 t * 65536) (pack_offset off)) = s + off := by
  show toS16 _ = _
  rw [← toS16_mod, sadd16_mod, word_mod]
  have h : pack_offset off % 65536 = toU16 off := word_mod off off
  rw [h, toS16_add_U16 s off hs hs' ho ho']

theorem lane_hi (s t off : Int) (ht : -128 ≤ t) (ht' : t ≤ 127)
    (ho : -128 ≤ off) (ho' : off ≤ 127) :
    hiS16 (sadd16 (toU16 s + toU16 t * 65536) (pack_offset off)) = t + off := by
  show toS16 _ = _
  rw [sadd16_div]
  have h1 : (toU16 s + toU16 t * 65536) / 65536 % 65536 = toU16 t := by
    rw [word_div]; have := toU16_lt t; omega
  have h2 : pack_offset off / 65536 % 65536 = toU16 off := by
    have h := word_div off off
    show (toU16 off + toU16 off * 65536) / 65536 % 65536 = toU16 off
    rw [h]; have := toU16_lt off; omega
  rw [h1, h2, toS16_add_U16 t off ht ht' ho ho']

theorem write_PACKq7 (v0 v1 v2 v3 : Int)
    (h0 : -128 ≤ v0 ∧ v0 ≤ 127) (h1 : -128 ≤ v1 ∧ v1 ≤ 127)
    (h2 : -128 ≤ v2 ∧ v2 ≤ 127) (h3 : -128 ≤ v3 ∧ v3 ≤ 127) :
    write_q7x4 (PACKq7 v0 v1 v2 v3) = [v0, v1, v2, v3] := by
  unfold write_q7x4 PACKq7
  have e0 : byteS8 (toU8 v0 + toU8 v1 * 256 + toU8 v2 * 65536 + toU8 v3 * 16777216) = v0 := by
    unfold byteS8 toU8; split <;> omega
  have e1 : byteS8 ((toU8 v0 + toU8 v1 * 256 + toU8 v2 * 65536 + toU8 v3 * 16777216) / 256) = v1 := by
    unfold byteS8 toU8; split <;> omega
  have e2 : byteS8 ((toU8 v0 + toU8 v1 * 256 + toU8 v2 * 65536 + toU8 v3 * 16777216) / 65536) = v2 := by
    unfold byteS8 toU8; split <;> omega
  have e3 : byteS8 ((toU8 v0 + toU8 v1 * 256 + toU8 v2 * 65536 + toU8 v3 * 16777216) / 16777216) = v3 := by
    unfold byteS8 toU8; split <;> omega
  rw [e0, e1, e2, e3]

/-! ### Group and loop lemmas -/

theorem packed_group_eq (p : MulParams)
    (ho1 : -128 ≤ p.input_1_offset) (ho1' : p.input_1_offset ≤ 127)
    (ho2 : -128 ≤ p.input_2_offset) (ho2' : p.input_2_offset ≤ 127)
    (x0 x1 x2 x3 y0 y1 y2 y3 : Int)
    (hx0 : -128 ≤ x0 ∧ x0 ≤ 127) (hx1 : -128 ≤ x1 ∧ x1 ≤ 127)
    (hx2 : -128 ≤ x2 ∧ x2 ≤ 127) (hx3 : -128 ≤ x3 ∧ x3 ≤ 127)
    (hy0 : -128 ≤ y0 ∧ y0 ≤ 127) (hy1 : -128 ≤ y1 ∧ y1 ≤ 127)
    (hy2 : -128 ≤ y2 ∧ y2 ≤ 127) (hy3 : -128 ≤ y3 ∧ y3 ≤ 127) :
    packed_group p x0 x1 x2 x3 y0 y1 y2 y3 =
      [elementwise_transform p x0 y0, elementwise_transform p x1 y1,
       elementwise_transform p x2 y2, elementwise_transform p x3 y3] := by
  simp only [packed_group, read_and_pad_reordered]
  rw [lane_lo x0 x2 _ hx0.1 hx0.2 ho1 ho1', lane_hi x0 x2 _ hx2.1 hx2.2 ho1 ho1',
      lane_lo x1 x3 _ hx1.1 hx1.2 ho1 ho1', lane_hi x1 x3 _ hx3.1 hx3.2 ho1 ho1',
      lane_lo y0 y2 _ hy0.1 hy0.2 ho2 ho2', lane_hi y0 y2 _ hy2.1 hy2.2 ho2 ho2',
      lane_lo y1 y3 _ hy1.1 hy1.2 ho2 ho2', lane_hi y1 y3 _ hy3.1 hy3.2 ho2 ho2']
  rw [write_PACKq7 _ _ _ _ (requant_clamp_narrow_s8 p _) (requant_clamp_narrow_s8 p _)
      (requant_clamp_narrow_s8 p _) (requant_clamp_narrow_s8 p _)]
  rfl

theorem packed_group_members (p : MulParams) (x0 x1 x2 x3 y0 y1 y2 y3 : Int) :
    ∃ v1 v2 v3 v4, packed_group p x0 x1 x2 x3 y0 y1 y2 y3 =
      [requant_clamp_narrow p v1, requant_clamp_narrow p v2,
       requant_clamp_narrow p v3, requant_clamp_narrow p v4] := by
  simp only [packed_group]
  exact ⟨_, _, _, _, write_PACKq7 _ _ _ _ (requant_clamp_narrow_s8 p _)
    (requant_clamp_narrow_s8 p _) (requant_clamp_narrow_s8 p _)
    (requant_clamp_narrow_s8 p _)⟩

theorem exists_four_cons (l : List Int) (h : 4 ≤ l.length) :
    ∃ a b c d t, l = a :: b :: c :: d :: t := by
  rcases l with _ | ⟨a, l⟩
  · simp at h
  rcases l with _ | ⟨b, l⟩
  · simp at h
  rcases l with _ | ⟨c, l⟩
  · simp at h
  rcases l with _ | ⟨d, t⟩
  · simp at h
  exact ⟨a, b, c, d, t, rfl⟩

theorem scalar_loop_length (p : MulParams) :
    ∀ (n : Nat) (l1 l2 : List Int), n ≤ l1.length → n ≤ l2.length →
      (scalar_loop p n l1 l2).length = n := by
  intro n
  induction n with
  | zero => intro l1 l2 _ _; rfl
  | succ n ih =>
    intro l1 l2 h1 h2
    match l1, l2 with
    | s1 :: t1, s2 :: t2 =>
      simp only [scalar_loop, List.length_cons]
      rw [ih t1 t2 (by simpa using h1) (by simpa using h2)]
    | [], _ => simp at h1
    | _ :: _, [] => simp at h2

theorem scalar_loop_add (p : MulParams) :
    ∀ (a b : Nat) (l1 l2 : List Int), a ≤ l1.length → a ≤ l2.length →
      scalar_loop p (a + b) l1 l2 =
        scalar_loop p a l1 l2 ++ scalar_loop p b (l1.drop a) (l2.drop a) := by
  intro a
  induction a with
  | zero => intro b l1 l2 _ _; simp [scalar_loop]
  | succ a ih =>
    intro b l1 l2 h1 h2
    match l1, l2 with
    | s1 :: t1, s2 :: t2 =>
      have hab : a + 1 + b = (a + b) + 1 := by omega
      rw [hab]
      simp only [scalar_loop, List.drop_succ_cons]
      rw [ih b t1 t2 (by simpa using h1) (by simpa using h2)]
      simp
    | [], _ => simp at h1
    | _ :: _, [] => simp at h2

theorem mem_scalar_loop (p : MulParams) :
    ∀ (n : Nat) (l1 l2 : List Int) (x : Int), x ∈ scalar_loop p n l1 l2 →
      ∃ v, x = requant_clamp_narrow p v := by
  intro n
  induction n with
  | zero => intro l1 l2 x hx; simp [scalar_loop] at hx
  | succ n ih =>
    intro l1 l2 x hx
    match l1, l2 with
    | [], _ => simp [scalar_loop] at hx
    | _ :: _, [] => simp [scalar_loop] at hx
    | s1 :: t1, s2 :: t2 =>
      simp only [scalar_loop, List.mem_cons] at hx
      rcases hx with rfl | hx
      · exact ⟨(s1 + p.input_1_offset) * (s2 + p.input_2_offset), rfl⟩
      · exact ih t1 t2 x hx

theorem packed_loop_shape (p : MulParams) :
    ∀ (k : Nat) (l1 l2 : List Int), 4 * k ≤ l1.length → 4 * k ≤ l2.length →
      (packed_loop p k l1 l2).1.length = 4 * k ∧
      (packed_loop p k l1 l2).2.1 = l1.drop (4 * k) ∧
      (packed_loop p k l1 l2).2.2 = l2.drop (4 * k) := by
  intro k
  induction k with
  | zero => intro l1 l2 _ _; simp [packed_loop]
  | succ k ih =>
    intro l1 l2 h1 h2
    obtain ⟨x0, x1, x2, x3, t1, rfl⟩ := exists_four_cons l1 (by omega)
    obtain ⟨y0, y1, y2, y3, t2, rfl⟩ := exists_four_cons l2 (by omega)
    have hh1 : 4 * k ≤ t1.length := by simp at h1; omega
    have hh2 : 4 * k ≤ t2.length := by simp at h2; omega
    obtain ⟨ihl, ihd1, ihd2⟩ := ih t1 t2 hh1 hh2
    have hk : 4 * (k + 1) = 4 * k + 1 + 1 + 1 + 1 := by omega
    rw [hk]
    simp only [packed_loop, List.drop_succ_cons]
    obtain ⟨v1, v2, v3, v4, hgrp⟩ := packed_group_members p x0 x1 x2 x3 y0 y1 y2 y3
    refine ⟨?_, ihd1, ihd2⟩
    rw [hgrp]
    simp [ihl]

theorem mem_packed_loop (p : MulParams) :
    ∀ (k : Nat) (l1 l2 : List Int) (x : Int), x ∈ (packed_loop p k l1 l2).1 →
      ∃ v, x = requant_clamp_narrow p v := by
  intro k
  induction k with
  | zero => intro l1 l2 x hx; simp [packed_loop] at hx
  | succ k ih =>
    intro l1 l2 x hx
    rcases l1 with _ | ⟨x0, _ | ⟨x1, _ | ⟨x2, _ | ⟨x3, t1⟩⟩⟩⟩ <;>
      rcases l2 with _ | ⟨y0, _ | ⟨y1, _ | ⟨y2, _ | ⟨y3, t2⟩⟩⟩⟩ <;>
      try exact absurd hx (List.not_mem_nil x)
    obtain ⟨w1, w2, w3, w4, hgrp⟩ := packed_group_members p x0 x1 x2 x3 y0 y1 y2 y3
    simp only [packed_loop] at hx
    rw [hgrp] at hx
    simp only [List.cons_append, List.nil_append, List.mem_cons] at hx
    rcases hx with rfl | rfl | rfl | rfl | hx
    · exact ⟨w1, rfl⟩
    · exact ⟨w2, rfl⟩
    · exact ⟨w3, rfl⟩
    · exact ⟨w4, rfl⟩
    · exact ih t1 t2 x hx

theorem packed_loop_eq (p : MulParams)
    (ho1 : -128 ≤ p.input_1_offset) (ho1' : p.input_1_offset ≤ 127)
    (ho2 : -128 ≤ p.input_2_offset) (ho2' : p.input_2_offset ≤ 127) :
    ∀ (k : Nat) (l1 l2 : List Int), 4 * k ≤ l1.length → 4 * k ≤ l2.length →
      (∀ x ∈ l1, -128 ≤ x ∧ x ≤ 127) → (∀ x ∈ l2, -128 ≤ x ∧ x ≤ 127) →
      packed_loop p k l1 l2 =
        (scalar_loop p (4 * k) l1 l2, l1.drop (4 * k), l2.drop (4 * k)) := by
  intro k
  induction k with
  | zero => intro l1 l2 _ _ _ _; simp [packed_loop, scalar_loop]
  | succ k ih =>
    intro l1 l2 h1 h2 hb1 hb2
    obtain ⟨x0, x1, x2, x3, t1, rfl⟩ := exists_four_cons l1 (by omega)
    obtain ⟨y0, y1, y2, y3, t2, rfl⟩ := exists_four_cons l2 (by omega)
    have hh1 : 4 * k ≤ t1.length := by simp at h1; omega
    have hh2 : 4 * k ≤ t2.length := by simp at h2; omega
    have hbt1 : ∀ x ∈ t1, -128 ≤ x ∧ x ≤ 127 := fun x hx => hb1 x (by simp [hx])
    have hbt2 : ∀ x ∈ t2, -128 ≤ x ∧ x ≤ 127 := fun x hx => hb2 x (by simp [hx])
    have hk : 4 * (k + 1) = 4 * k + 1 + 1 + 1 + 1 := by omega
    rw [hk]
    simp only [packed_loop, scalar_loop, List.drop_succ_cons]
    rw [ih t1 t2 hh1 hh2 hbt1 hbt2]
    rw [packed_group_eq p ho1 ho1' ho2 ho2' x0 x1 x2 x3 y0 y1 y2 y3
      (hb1 x0 (by simp)) (hb1 x1 (by simp)) (hb1 x2 (by simp)) (hb1 x3 (by simp))
      (hb2 y0 (by simp)) (hb2 y1 (by simp)) (hb2 y2 (by simp)) (hb2 y3 (by simp))]
    simp

theorem scalar_loop_get (p : MulParams) :
    ∀ (n : Nat) (l1 l2 : List Int) (i : Nat) (s1 s2 : Int), i < n →
      n ≤ l1.length → n ≤ l2.length → l1[i]? = some s1 → l2[i]? = some s2 →
      (scalar_loop p n l1 l2)[i]? = some (elementwise_transform p s1 s2) := by
  intro n
  induction n with
  | zero => intro l1 l2 i s1 s2 hi; omega
  | succ n ih =>
    intro l1 l2 i s1 s2 hi h1 h2 hs1 hs2
    match l1, l2 with
    | [], _ => simp at h1
    | _ :: _, [] => simp at h2
    | a :: t1, b :: t2 =>
      cases i with
      | zero =>
        simp only [List.getElem?_cons_zero, Option.some_inj] at hs1 hs2
        simp [scalar_loop, hs1, hs2]
      | succ i =>
        simp only [List.getElem?_cons_succ] at hs1 hs2
        simp only [scalar_loop, List.getElem?_cons_succ]
        exact ih t1 t2 i s1 s2 (by omega) (by simpa using h1) (by simpa using h2) hs1 hs2

theorem shiftRight_two (n : Nat) : n >>> 2 = n / 4 := by
  rw [Nat.shiftRight_eq_div_pow]

theorem and_three (n : Nat) : n &&& 3 = n % 4 := by
  have h := Nat.and_pow_two_sub_one_eq_mod n 2
  norm_num at h
  exact h

/-! ### Claims -/

/-- C1: for every pair of input `int8` vectors, every valid set of quantization
parameters (the spec's data model, §3, keeps both zero-points within the
representable range of the `int8` sample type), and every `block_size`, the
output sequence of the packed execution path (`ARM_MATH_LOOPUNROLL` and
`ARM_MATH_DSP` defined: `block_size >> 2` groups of four plus a scalar
remainder) is identical, element for element and in the same order, to the
output of the scalar-only execution path. -/
theorem C1_packed_scalar_equiv (p : MulParams) (l1 l2 : List Int) (n : Nat)
    (h1 : n ≤ l1.length) (h2 : n ≤ l2.length)
    (hb1 : ∀ x ∈ l1, -128 ≤ x ∧ x ≤ 127) (hb2 : ∀ x ∈ l2, -128 ≤ x ∧ x ≤ 127)
    (ho1 : -128 ≤ p.input_1_offset) (ho1' : p.input_1_offset ≤ 127)
    (ho2 : -128 ≤ p.input_2_offset) (ho2' : p.input_2_offset ≤ 127) :
    arm_elementwise_mul_s8_packed p l1 l2 n =
      arm_elementwise_mul_s8_scalar p l1 l2 n := by
  unfold arm_elementwise_mul_s8_packed arm_elementwise_mul_s8_scalar
  rw [shiftRight_two, and_three]
  have hd1 : 4 * (n / 4) ≤ l1.length := by omega
  have hd2 : 4 * (n / 4) ≤ l2.length := by omega
  rw [packed_loop_eq p ho1 ho1' ho2 ho2' (n / 4) l1 l2 hd1 hd2 hb1 hb2]
  dsimp only
  rw [← scalar_loop_add p (4 * (n / 4)) (n % 4) l1 l2 hd1 hd2]
  have hsum : 4 * (n / 4) + n % 4 = n := by omega
  rw [hsum]

/-- Witness for C1 at a concrete invocation (mixed group/remainder size). -/
theorem C1_witness :
    arm_elementwise_mul_s8_packed ⟨5, -3, 7, 1500000000, -2, -120, 121⟩
        [1, -2, 127, -128, 44, 5, -6] [9, 8, -128, 127, -1, 2, 3] 7 =
      arm_elementwise_mul_s8_scalar ⟨5, -3, 7, 1500000000, -2, -120, 121⟩
        [1, -2, 127, -128, 44, 5, -6] [9, 8, -128, 127, -1, 2, 3] 7 :=
  C1_packed_scalar_equiv ⟨5, -3, 7, 1500000000, -2, -120, 121⟩
    [1, -2, 127, -128, 44, 5, -6] [9, 8, -128, 127, -1, 2, 3] 7
    (by decide) (by decide) (by decide) (by decide)
    (by decide) (by decide) (by decide) (by decide)

/-- C2: for every index `i < block_size`, the output element at `i` equals
`narrow_to_int8(Clamp(Rescale((input_1[i]+off1)*(input_2[i]+off2), out_mult,
out_shift) + out_offset, out_min, out_max))` — that is, `elementwise_transform`
applied to the two samples at index `i` and the parameters alone, with no
dependence on the element position. -/
theorem C2_element_formula (p : MulParams) (l1 l2 : List Int) (n i : Nat)
    (s1 s2 : Int) (hi : i < n) (h1 : n ≤ l1.length) (h2 : n ≤ l2.length)
    (hs1 : l1[i]? = some s1) (hs2 : l2[i]? = some s2) :
    ((arm_elementwise_mul_s8_scalar p l1 l2 n).1)[i]? =
      some (elementwise_transform p s1 s2) :=
  scalar_loop_get p n l1 l2 i s1 s2 hi h1 h2 hs1 hs2

/-- Witness for C2: the second element of the spec §8 concrete scenario. -/
theorem C2_witness :
    ((arm_elementwise_mul_s8_scalar ⟨0, 0, 0, 2147483647, 0, -128, 127⟩
        [10, -5] [3, 3] 2).1)[1]? =
      some (elementwise_transform ⟨0, 0, 0, 2147483647, 0, -128, 127⟩ (-5) 3) :=
  C2_element_formula ⟨0, 0, 0, 2147483647, 0, -128, 127⟩ [10, -5] [3, 3] 2 1
    (-5) 3 (by decide) (by decide) (by decide) (by decide) (by decide)

/-- C3: under the precondition `out_min ≤ out_max` with both bounds
representable as `int8`, every element written by either path, read back as a
signed 8-bit value, lies in `[out_min, out_max]`. -/
theorem C3_range_bound (p : MulParams) (l1 l2 : List Int) (n : Nat)
    (hmm : p.out_activation_min ≤ p.out_activation_max)
    (hlo : -128 ≤ p.out_activation_min) (hhi : p.out_activation_max ≤ 127) :
    (∀ x ∈ (arm_elementwise_mul_s8_scalar p l1 l2 n).1,
        p.out_activation_min ≤ x ∧ x ≤ p.out_activation_max) ∧
    (∀ x ∈ (arm_elementwise_mul_s8_packed p l1 l2 n).1,
        p.out_activation_min ≤ x ∧ x ≤ p.out_activation_max) := by
  constructor
  · intro x hx
    obtain ⟨v, rfl⟩ := mem_scalar_loop p n l1 l2 x hx
    exact requant_clamp_narrow_range p hmm hlo hhi v
  · intro x hx
    rcases List.mem_append.1 hx with hmem | hmem
    · obtain ⟨v, rfl⟩ := mem_packed_loop p (n >>> 2) l1 l2 x hmem
      exact requant_clamp_narrow_range p hmm hlo hhi v
    · obtain ⟨v, rfl⟩ := mem_scalar_loop p (n &&& 3) _ _ x hmem
      exact requant_clamp_narrow_range p hmm hlo hhi v

/-- Witness for C3 at a concrete invocation: the produced element `5` of a
run with clamp bounds `[-5, 5]` satisfies the bounds. -/
theorem C3_witness : (-5 : Int) ≤ 5 ∧ (5 : Int) ≤ 5 :=
  (C3_range_bound ⟨0, 0, 0, 2147483647, 0, -5, 5⟩ [3] [4] 1
    (by decide) (by decide) (by decide)).1 5 (by decide)

/-- C4 counterexample: the claim predicts that a negative caller-supplied
`out_shift` is realized as an exact left shift, so an intermediate value of
`3` (multiplier `2^31 - 1`, i.e. ≈1.0, reproduces `3` after the doubling high
multiply) with `out_shift = -1` would yield `6`.  The kernel passes
`-out_shift` to the power-of-two divide (source line 154), so at
`out_shift = -1` it performs the rounding arithmetic right shift by one and
yields `2` — the directions in the claim are inverted. -/
theorem C4_counterexample :
    kernel_rescale 3 2147483647 (-1) = 2 ∧ kernel_rescale 3 2147483647 (-1) ≠ 6 := by
  decide

/-- C4 (amended): the kernel negates `out_shift` before the power-of-two
divide, so a non-positive `out_shift` is realized as an arithmetic right shift
by `-out_shift` with round-half-away-from-zero semantics (pass-through at
`out_shift = 0`; an intermediate value of `3` with `out_shift = -1` yields
`2`), and a non-negative `out_shift` as an exact left shift (multiplication by
`2^out_shift`). -/
theorem C4_shift_semantics (v m s : Int) :
    (s ≤ 0 → kernel_rescale v m s =
      roundHalfAwayDiv (arm_nn_sat_doubling_high_mult v m) (2 ^ (-s).toNat)) ∧
    (0 ≤ s → kernel_rescale v m s =
      arm_nn_sat_doubling_high_mult v m * 2 ^ s.toNat) := by
  set x := arm_nn_sat_doubling_high_mult v m with hx
  constructor
  · intro hs
    rcases lt_or_eq_of_le hs with hlt | heq
    · unfold kernel_rescale roundHalfAwayDiv
      rw [← hx]
      have hpos : (0 : Int) < -s := by omega
      unfold arm_nn_divide_by_power_of_two
      rw [if_pos hpos]
      have hk : (-s).toNat = ((-s).toNat - 1) + 1 := by omega
      have hden : (2 : Int) ^ (-s).toNat = 2 ^ ((-s).toNat - 1) * 2 := by
        conv_lhs => rw [hk]
        rw [pow_succ]
      have hhalf : (2 : Int) ^ (-s).toNat / 2 = 2 ^ ((-s).toNat - 1) := by
        rw [hden, Int.mul_ediv_cancel _ (by norm_num)]
      have hbias : (-s - 1).toNat = (-s).toNat - 1 := by omega
      rw [hbias, hhalf]
    · subst heq
      unfold kernel_rescale roundHalfAwayDiv arm_nn_divide_by_power_of_two
      rw [← hx]
      norm_num
  · intro hs
    unfold kernel_rescale arm_nn_divide_by_power_of_two
    rw [← hx]
    have hns : ¬ (0 : Int) < -s := by omega
    rw [if_neg hns, neg_neg]

/-- Witness for C4 (amended) at `out_shift = -1` on an intermediate value `3`. -/
theorem C4_witness :
    kernel_rescale 3 2147483647 (-1) =
      roundHalfAwayDiv (arm_nn_sat_doubling_high_mult 3 2147483647)
        (2 ^ (-(-1 : Int)).toNat) :=
  (C4_shift_semantics 3 2147483647 (-1)).1 (by decide)

theorem mul_bounds_of_not_corner (m1 m2 : Int)
    (h1 : Q31_MIN ≤ m1) (h1' : m1 ≤ Q31_MAX) (h2 : Q31_MIN ≤ m2) (h2' : m2 ≤ Q31_MAX)
    (hne : ¬(m1 = Q31_MIN ∧ m2 = Q31_MIN)) :
    -4611686016279904256 ≤ m1 * m2 ∧ m1 * m2 ≤ 4611686016279904256 := by
  unfold Q31_MIN Q31_MAX at *
  constructor
  · rcases le_or_lt 0 m1 with ha | ha <;> rcases le_or_lt 0 m2 with hb | hb
    · nlinarith [mul_nonneg ha hb]
    · have h : m1 * (-m2) ≤ 2147483647 * 2147483648 :=
        mul_le_mul (by omega) (by omega) (by omega) (by omega)
      nlinarith [h]
    · have h : (-m1) * m2 ≤ 2147483648 * 2147483647 :=
        mul_le_mul (by omega) (by omega) (by omega) (by omega)
      nlinarith [h]
    · nlinarith [mul_pos (neg_pos.mpr ha) (neg_pos.mpr hb)]
  · rcases le_or_lt 0 m1 with ha | ha <;> rcases le_or_lt 0 m2 with hb | hb
    · have h : m1 * m2 ≤ 2147483647 * 2147483647 :=
        mul_le_mul (by omega) (by omega) hb (by omega)
      nlinarith [h]
    · nlinarith [mul_nonneg ha (by omega : (0 : Int) ≤ -m2)]
    · nlinarith [mul_nonneg (by omega : (0 : Int) ≤ -m1) hb]
    · rcases not_and_or.mp hne with hm | hm
      · have h : (-m1) * (-m2) ≤ 2147483647 * 2147483648 :=
          mul_le_mul (by omega) (by omega) (by omega) (by omega)
        nlinarith [h]
      · have h : (-m1) * (-m2) ≤ 2147483648 * 2147483647 :=
          mul_le_mul (by omega) (by omega) (by omega) (by omega)
        nlinarith [h]

/-- C5: the saturating doubling high multiply saturates exactly in the single
corner where both operands equal `INT32_MIN`, returning `INT32_MAX` instead of
a wrapped value; on every other pair of in-range `int32` operands the result
stays within the signed 32-bit range (no wraparound) and equals the high 32
bits of the doubled double-width product rounded to nearest with ties away
from zero. -/
theorem C5_sat_no_wrap :
    arm_nn_sat_doubling_high_mult Q31_MIN Q31_MIN = Q31_MAX ∧
    ∀ m1 m2 : Int, Q31_MIN ≤ m1 → m1 ≤ Q31_MAX → Q31_MIN ≤ m2 → m2 ≤ Q31_MAX →
      ¬(m1 = Q31_MIN ∧ m2 = Q31_MIN) →
      Q31_MIN ≤ arm_nn_sat_doubling_high_mult m1 m2 ∧
        arm_nn_sat_doubling_high_mult m1 m2 ≤ Q31_MAX ∧
        arm_nn_sat_doubling_high_mult m1 m2 =
          roundHalfAwayDiv (2 * (m1 * m2)) 4294967296 := by
  constructor
  · show (if Q31_MIN = Q31_MIN ∧ Q31_MIN = Q31_MIN then Q31_MAX else _) = Q31_MAX
    rw [if_pos ⟨rfl, rfl⟩]
  · intro m1 m2 h1 h1' h2 h2' hne
    obtain ⟨hlb, hub⟩ := mul_bounds_of_not_corner m1 m2 h1 h1' h2 h2' hne
    have hchar : arm_nn_sat_doubling_high_mult m1 m2 =
        if 0 ≤ m1 * m2 then (m1 * m2 + 1073741824) / 2147483648
        else -((-(m1 * m2) + 1073741824) / 2147483648) := by
      show (if m1 = Q31_MIN ∧ m2 = Q31_MIN then Q31_MAX
        else if 0 ≤ m1 * m2 then (m1 * m2 + 1073741824).tdiv 2147483648
        else (m1 * m2 - 1073741824).tdiv 2147483648) = _
      rw [if_neg hne]
      rcases le_or_lt 0 (m1 * m2) with h | h
      · rw [if_pos h, if_pos h, Int.tdiv_eq_ediv (by omega) (by norm_num)]
      · rw [if_neg (not_le.mpr h), if_neg (not_le.mpr h),
          tdiv_char _ _ (by norm_num : (0 : Int) ≤ 2147483648), if_neg (by omega)]
        have hnum : -(m1 * m2 - 1073741824) = -(m1 * m2) + 1073741824 := by ring
        rw [hnum]
    have hchar2 : roundHalfAwayDiv (2 * (m1 * m2)) 4294967296 =
        if 0 ≤ m1 * m2 then (2 * (m1 * m2) + 2147483648) / 4294967296
        else -((-(2 * (m1 * m2)) + 2147483648) / 4294967296) := by
      unfold roundHalfAwayDiv
      rcases le_or_lt 0 (m1 * m2) with h | h
      · rw [if_pos (by omega : (0 : Int) ≤ 2 * (m1 * m2)), if_pos h,
          (by norm_num : (4294967296 : Int) / 2 = 2147483648),
          Int.tdiv_eq_ediv (by omega) (by norm_num)]
      · rw [if_neg (by omega : ¬ (0 : Int) ≤ 2 * (m1 * m2)), if_neg (not_le.mpr h),
          (by norm_num : (4294967296 : Int) / 2 = 2147483648),
          tdiv_char _ _ (by norm_num : (0 : Int) ≤ 4294967296), if_neg (by omega)]
        have hnum : -(2 * (m1 * m2) - 2147483648) = -(2 * (m1 * m2)) + 2147483648 := by
          ring
        rw [hnum]
    rw [hchar, hchar2]
    unfold Q31_MIN Q31_MAX
    rcases le_or_lt 0 (m1 * m2) with h | h
    · simp only [if_pos h]
      refine ⟨by omega, by omega, by omega⟩
    · simp only [if_neg (not_le.mpr h)]
      refine ⟨by omega, by omega, by omega⟩

/-- Witness for C5's universally quantified part at a concrete operand pair. -/
theorem C5_witness :
    Q31_MIN ≤ arm_nn_sat_doubling_high_mult 5 7 ∧
      arm_nn_sat_doubling_high_mult 5 7 ≤ Q31_MAX ∧
      arm_nn_sat_doubling_high_mult 5 7 = roundHalfAwayDiv (2 * (5 * 7)) 4294967296 :=
  C5_sat_no_wrap.2 5 7 (by decide) (by decide) (by decide) (by decide) (by decide)

/-- C6: with the fixed-point multiplier encoding exactly 1.0 (`2^30` doubled)
and shift 0, the kernel's rescale is the identity on every in-range `int32`
accumulator value. -/
theorem C6_identity_scale (v : Int) (h1 : Q31_MIN ≤ v) (h2 : v ≤ Q31_MAX) :
    kernel_rescale v (2 * 1073741824) 0 = v := by
  have hne : ¬(v = Q31_MIN ∧ (2 * 1073741824 : Int) = Q31_MIN) := by
    rintro ⟨-, h⟩
    norm_num [Q31_MIN] at h
  have hmul : arm_nn_sat_doubling_high_mult v (2 * 1073741824) = v := by
    show (if v = Q31_MIN ∧ (2 * 1073741824 : Int) = Q31_MIN then Q31_MAX
      else if 0 ≤ v * (2 * 1073741824) then
        (v * (2 * 1073741824) + 1073741824).tdiv 2147483648
      else (v * (2 * 1073741824) - 1073741824).tdiv 2147483648) = v
    rw [if_neg hne]
    rcases le_or_lt 0 (v * (2 * 1073741824)) with h | h
    · rw [if_pos h, Int.tdiv_eq_ediv (by omega) (by norm_num)]
      omega
    · rw [if_neg (not_le.mpr h),
        tdiv_char _ _ (by norm_num : (0 : Int) ≤ 2147483648), if_neg (by omega)]
      omega
  unfold kernel_rescale
  rw [hmul]
  unfold arm_nn_divide_by_power_of_two
  norm_num

/-- Witness for C6 at a concrete accumulator value. -/
theorem C6_witness : kernel_rescale 12345 (2 * 1073741824) 0 = 12345 :=
  C6_identity_scale 12345 (by decide) (by decide)

/-- C7: a call with `block_size = 0` writes no output element, depends on no
input element (the equation holds for every pair of input vectors, which occur
only on the left-hand side), and returns the success status — on both the
packed and the scalar configuration. -/
theorem C7_zero_block_size (p : MulParams) (l1 l2 : List Int) :
    arm_elementwise_mul_s8_scalar p l1 l2 0 = ([], arm_status.ARM_MATH_SUCCESS) ∧
    arm_elementwise_mul_s8_packed p l1 l2 0 = ([], arm_status.ARM_MATH_SUCCESS) :=
  ⟨rfl, rfl⟩

/-- C8: on every input and every parameter set, both configurations return
`ARM_MATH_SUCCESS`; no argument validation exists and no other status value is
reachable. -/
theorem C8_always_success (p : MulParams) (l1 l2 : List Int) (n : Nat) :
    (arm_elementwise_mul_s8_scalar p l1 l2 n).2 = arm_status.ARM_MATH_SUCCESS ∧
    (arm_elementwise_mul_s8_packed p l1 l2 n).2 = arm_status.ARM_MATH_SUCCESS :=
  ⟨rfl, rfl⟩

/-- C9: the clamp applies `MAX` with the lower bound before `MIN` with the
upper bound, so when a caller violates the precondition and supplies
`out_activation_min > out_activation_max`, every written element equals the
`int8` narrowing of `out_activation_max`, whatever the input samples — on both
paths. -/
theorem C9_degenerate_clamp (p : MulParams) (l1 l2 : List Int) (n : Nat)
    (h : p.out_activation_max < p.out_activation_min) :
    (∀ x ∈ (arm_elementwise_mul_s8_scalar p l1 l2 n).1,
        x = toS8 p.out_activation_max) ∧
    (∀ x ∈ (arm_elementwise_mul_s8_packed p l1 l2 n).1,
        x = toS8 p.out_activation_max) := by
  constructor
  · intro x hx
    obtain ⟨v, rfl⟩ := mem_scalar_loop p n l1 l2 x hx
    exact requant_clamp_narrow_degenerate p h v
  · intro x hx
    rcases List.mem_append.1 hx with hmem | hmem
    · obtain ⟨v, rfl⟩ := mem_packed_loop p (n >>> 2) l1 l2 x hmem
      exact requant_clamp_narrow_degenerate p h v
    · obtain ⟨v, rfl⟩ := mem_scalar_loop p (n &&& 3) _ _ x hmem
      exact requant_clamp_narrow_degenerate p h v

/-- Witness for C9 at a concrete inverted-clamp invocation. -/
theorem C9_witness : (-10 : Int) = toS8 (-10) :=
  (C9_degenerate_clamp ⟨0, 0, 0, 2147483647, 0, 10, -10⟩ [10] [3] 1
    (by decide)).1 (-10) (by decide)

/-- C10: for `block_size > 0` (given inputs of sufficient length) each path
produces exactly `block_size` output elements, the packed loop contributing
`4 * (block_size / 4)` of them and the scalar remainder loop the other
`block_size % 4`, and nothing else: the model is a pure function whose only
product is that output list, so neither input vector nor any other location is
written. -/
theorem C10_output_extent (p : MulParams) (l1 l2 : List Int) (n : Nat)
    (hn : 0 < n) (h1 : n ≤ l1.length) (h2 : n ≤ l2.length) :
    (arm_elementwise_mul_s8_scalar p l1 l2 n).1.length = n ∧
    (arm_elementwise_mul_s8_packed p l1 l2 n).1.length = n ∧
    (packed_loop p (n >>> 2) l1 l2).1.length = 4 * (n / 4) ∧
    (scalar_loop p (n &&& 3) (packed_loop p (n >>> 2) l1 l2).2.1
        (packed_loop p (n >>> 2) l1 l2).2.2).length = n % 4 := by
  have hd1 : 4 * (n / 4) ≤ l1.length := by omega
  have hd2 : 4 * (n / 4) ≤ l2.length := by omega
  obtain ⟨hlen, hdr1, hdr2⟩ := packed_loop_shape p (n / 4) l1 l2 hd1 hd2
  have hrem : (scalar_loop p (n % 4) (l1.drop (4 * (n / 4)))
      (l2.drop (4 * (n / 4)))).length = n % 4 := by
    refine scalar_loop_length p _ _ _ ?_ ?_ <;> rw [List.length_drop] <;> omega
  refine ⟨scalar_loop_length p n l1 l2 h1 h2, ?_, ?_, ?_⟩
  · show ((packed_loop p (n >>> 2) l1 l2).1 ++
      scalar_loop p (n &&& 3) (packed_loop p (n >>> 2) l1 l2).2.1
        (packed_loop p (n >>> 2) l1 l2).2.2).length = n
    rw [shiftRight_two, and_three, List.length_append, hlen, hdr1, hdr2, hrem]
    omega
  · rw [shiftRight_two, hlen]
  · rw [shiftRight_two, and_three, hdr1, hdr2, hrem]

/-- Witness for C10 at a concrete five-element invocation. -/
theorem C10_witness :
    (arm_elementwise_mul_s8_scalar ⟨1, 2, 3, 1073741824, 0, -128, 127⟩
        [1, 2, 3, 4, 5] [5, 4, 3, 2, 1] 5).1.length = 5 ∧
    (arm_elementwise_mul_s8_packed ⟨1, 2, 3, 1073741824, 0, -128, 127⟩
        [1, 2, 3, 4, 5] [5, 4, 3, 2, 1] 5).1.length = 5 ∧
    (packed_loop ⟨1, 2, 3, 1073741824, 0, -128, 127⟩ (5 >>> 2)
        [1, 2, 3, 4, 5] [5, 4, 3, 2, 1]).1.length = 4 * (5 / 4) ∧
    (scalar_loop ⟨1, 2, 3, 1073741824, 0, -128, 127⟩ (5 &&& 3)
        (packed_loop ⟨1, 2, 3, 1073741824, 0, -128, 127⟩ (5 >>> 2)
          [1, 2, 3, 4, 5] [5, 4, 3, 2, 1]).2.1
        (packed_loop ⟨1, 2, 3, 1073741824, 0, -128, 127⟩ (5 >>> 2)
          [1, 2, 3, 4, 5] [5, 4, 3, 2, 1]).2.2).length = 5 % 4 :=
  C10_output_extent ⟨1, 2, 3, 1073741824, 0, -128, 127⟩ [1, 2, 3, 4, 5]
    [5, 4, 3, 2, 1] 5 (by decide) (by decide) (by decide)

end ElementwiseMulS8
